import Mathlib

/-!
Verification of the index-parsing and top-K ranking core of
`package_statistics.py`.

The embedding models the pure core of the program:

* `reSplitWs` models `re.split(r"\s{1,}", line)` on a physical input line
  (the lines are exactly what `file.readlines()` yields, so every line except
  possibly the last carries its trailing newline).
* `splitComma` models `str.split(",")`.
* `Aggregate` models the `parsed_content` dictionary of `ContentIndice`:
  a Python dict preserves insertion order, so it is an association list with
  new keys appended at the end.
* `parseLine` / `parseFile` model `ContentIndice.parse_file`; accessing
  `parsed_line[1]` on a split result with fewer than two fields raises
  `IndexError`, modelled as `Except.error PyErr.indexError`.
* `selectLoopSt` / `getTopPackagesSt` model the loop of
  `ContentIndice.get_top_packages`: it copies the dictionary into the
  auxiliary lists `packages_list` and `occurrence_list`, then `number` times
  takes `occurrence_list.index(max(occurrence_list))` (Python's `max` raises
  `ValueError` on an empty list, `list.index` returns the first index of the
  maximum) and pops that index from both auxiliary lists.  The object state
  (`parsed_content`) is threaded through the loop explicitly so that frame
  and determinism properties are actual statements about the loop.
  The returned list of `(package, count)` pairs stands for the printed ranked
  lines, in print order (the printed rank is the position plus one).
* `runMain` models the `try` block of `main` after the retrieval step
  (network retrieval is the external collaborator and is outside the core):
  `except (IOError, ValueError)` catches the `ValueError` coming from `max`
  and exits with status 1; an `IndexError` from parsing is not caught, so the
  interpreter aborts with a traceback (a nonzero exit with no report).
-/

/-- ASCII whitespace characters matched by the `\s` class used in
`re.split(r"\s{1,}", line)`: space, tab, newline, carriage return, vertical
tab, form feed. -/
def isWs (c : Char) : Bool :=
  c == ' ' || c == '\t' || c == '\n' || c == '\r' ||
    c == Char.ofNat 11 || c == Char.ofNat 12

/-- Worker for `reSplitWs`: walks the characters, accumulating the current
field (reversed) in `acc`; `lastWs` records whether the previous character was
part of a whitespace run (so that a run of several whitespace characters
produces a single field boundary, as `\s{1,}` does). -/
def reSplitAux : List Char → List Char → Bool → List (List Char)
  | [], acc, _ => [acc.reverse]
  | c :: cs, acc, lastWs =>
    if isWs c then
      if lastWs then reSplitAux cs acc true
      else acc.reverse :: reSplitAux cs [] true
    else reSplitAux cs (c :: acc) false

/-- Model of `re.split(r"\s{1,}", line)`.  Like the Python original it keeps
empty fields at the boundaries: `"a\n"` splits to `["a", ""]`, `""` splits to
`[""]`, `"a"` splits to `["a"]`. -/
def reSplitWs (line : String) : List String :=
  (reSplitAux line.toList [] false).map (fun cs => String.mk cs)

/-- Worker for `splitComma`. -/
def splitCommaAux : List Char → List Char → List (List Char)
  | [], acc => [acc.reverse]
  | c :: cs, acc =>
    if c = ',' then acc.reverse :: splitCommaAux cs []
    else splitCommaAux cs (c :: acc)

/-- Model of Python's `str.split(",")`: `""` splits to `[""]`,
`"a,b"` to `["a", "b"]`. -/
def splitComma (s : String) : List String :=
  (splitCommaAux s.toList []).map (fun cs => String.mk cs)

/-- The `parsed_content` dictionary of `ContentIndice`, mapping a package key
to the list of file paths recorded for it, in insertion order. -/
abbrev Aggregate := List (String × List String)

/-- The Python exceptions the core can raise: `IndexError` from
`parsed_line[1]` on a short split result, `ValueError` from `max([])`. -/
inductive PyErr
  | indexError
  | valueError
  deriving DecidableEq

deriving instance DecidableEq for Except

/-- One iteration of the loop body of `parse_file` over one package token:
if the package key exists, append the file name to its list; otherwise create
a new key (at the end, as a Python dict insert does). -/
def addPackage : Aggregate → String → String → Aggregate
  | [], package, file => [(package, [file])]
  | (k, fs) :: rest, package, file =>
    if k = package then (k, fs ++ [file]) :: rest
    else (k, fs) :: addPackage rest package file

/-- Processing of one line of `parse_file`: split the line on whitespace runs,
take `parsed_line[0]` as the file path and `parsed_line[1]` as the
comma-separated package list, and fold every package token into the
aggregate.  When the split result has fewer than two fields, the subscript
`parsed_line[1]` raises `IndexError`. -/
def parseLine (pc : Aggregate) (line : String) : Except PyErr Aggregate :=
  match reSplitWs line with
  | packagesFile :: packagesField :: _ =>
    Except.ok ((splitComma packagesField).foldl
      (fun acc package => addPackage acc package packagesFile) pc)
  | _ => Except.error PyErr.indexError

/-- The line loop of `parse_file`, starting from the aggregate `pc`. -/
def parseFileFrom : Aggregate → List String → Except PyErr Aggregate
  | pc, [] => Except.ok pc
  | pc, l :: ls =>
    match parseLine pc l with
    | Except.ok pc' => parseFileFrom pc' ls
    | Except.error e => Except.error e

/-- `ContentIndice.parse_file` on the list of physical lines of the
decompressed stream (as `readlines` yields them), starting from the empty
`parsed_content` of a fresh `ContentIndice`. -/
def parseFile (lines : List String) : Except PyErr Aggregate :=
  parseFileFrom [] lines

/-- Python's `list.index(x)`: the index of the first occurrence of `x`.
(`list.index` raises `ValueError` when `x` is absent; at the call site in
`get_top_packages` the argument is `max(occurrence_list)`, which is always
present, so the out-of-list result 0 is unreachable there.) -/
def pyIndex : List Nat → Nat → Nat
  | [], _ => 0
  | a :: as, x => if a = x then 0 else pyIndex as x + 1

/-- The ranking loop of `get_top_packages`.  `n` is the remaining number of
iterations of `for i in range(number)`, `pk` and `oc` are the auxiliary lists
`packages_list` and `occurrence_list`, and `s` is the object state
(`parsed_content`), threaded through every iteration.  An iteration on an
empty `occurrence_list` is Python's `max([])`, which raises `ValueError`;
otherwise `occurrence_list.index(max(occurrence_list))` is the first index of
the maximum, the corresponding pair is printed, and that index is popped from
both auxiliary lists. -/
def selectLoopSt : Nat → List String → List Nat → Aggregate →
    (List (String × Nat) × Option PyErr) × Aggregate
  | 0, _, _, s => (([], none), s)
  | _ + 1, _, [], s => (([], some PyErr.valueError), s)
  | n + 1, pk, o :: os, s =>
    let m := List.foldl Nat.max o os
    let idx := pyIndex (o :: os) m
    let r := selectLoopSt n (pk.eraseIdx idx) ((o :: os).eraseIdx idx) s
    (((pk.getD idx "", m) :: r.1.1, r.1.2), r.2)

/-- `ContentIndice.get_top_packages(number)`: populate the auxiliary lists
from `parsed_content` (keys and lengths of the file lists, in dictionary
order) and run the ranking loop.  Returns the printed lines, the exception
raised if any, and the object state after the call. -/
def getTopPackagesSt (s : Aggregate) (number : Nat) :
    (List (String × Nat) × Option PyErr) × Aggregate :=
  selectLoopSt number (s.map Prod.fst) (s.map (fun p => p.2.length)) s

/-- The observable output of `get_top_packages`: printed lines and the
exception, if any. -/
def getTopPackages (s : Aggregate) (number : Nat) :
    List (String × Nat) × Option PyErr :=
  (getTopPackagesSt s number).1

/-- How a run of `main` terminates. -/
inductive Outcome
  | exitZero
  | exitOneCaught
  | uncaughtException
  deriving DecidableEq

/-- What `main`'s `except (IOError, ValueError)` clause does with an
exception from the core: a `ValueError` is caught (print the error,
`sys.exit(1)`), an `IndexError` is not caught and aborts the interpreter with
a traceback and a nonzero exit status. -/
def errOutcome : PyErr → Outcome
  | PyErr.valueError => Outcome.exitOneCaught
  | PyErr.indexError => Outcome.uncaughtException

/-- The pure core of `main` on an already retrieved and decompressed stream:
`parse_file` then `get_top_packages(number)` (with `number = 10` in the
script), under `main`'s exception handling.  The first component is the list
of ranked lines printed. -/
def runMain (lines : List String) (number : Nat) :
    List (String × Nat) × Outcome :=
  match parseFile lines with
  | Except.error e => ([], errOutcome e)
  | Except.ok pc =>
    match getTopPackages pc number with
    | (out, none) => (out, Outcome.exitZero)
    | (out, some e) => (out, errOutcome e)

/-- Package-token list of a physical line, following the spec's reading of
the wire contract: the comma-separated tokens of the second
whitespace-separated field (empty when the line has fewer than two fields). -/
def tokensOfLine (line : String) : List String :=
  match reSplitWs line with
  | _ :: p :: _ => splitComma p
  | _ => []

/-- Number of occurrences of `key` in a token list. -/
def countTok : List String → String → Nat
  | [], _ => 0
  | t :: ts, key => (if t = key then 1 else 0) + countTok ts key

/-- The count the aggregate records for `key`: the length of its file list,
or 0 when the key is absent. -/
def countOf : Aggregate → String → Nat
  | [], _ => 0
  | (k, fs) :: rest, key => if k = key then fs.length else countOf rest key

/-- Sum of the aggregate's counts over all keys. -/
def sumCounts (pc : Aggregate) : Nat :=
  (pc.map (fun p => p.2.length)).sum

/-- Total number of occurrences of `key` across the package-token lists of
all lines. -/
def totalOcc : List String → String → Nat
  | [], _ => 0
  | l :: ls, key => countTok (tokensOfLine l) key + totalOcc ls key

/-- Total number of (line, package-token) occurrences: the sum over all lines
of the number of comma-separated tokens of that line's package list. -/
def totalTokens : List String → Nat
  | [] => 0
  | l :: ls => (tokensOfLine l).length + totalTokens ls

/-- Number of lines in whose package-token list `key` appears (the spec's
claim counts distinct lines: an occurrence list repeating `key` inside one
line still contributes one here). -/
def linesWithKey (lines : List String) (key : String) : Nat :=
  (lines.filter (fun l => (tokensOfLine l).contains key)).length

/-! ### Facts about `max`, `pyIndex` and the ranking loop -/

/-- `Nat.max` picks one of its arguments. -/
theorem natMax_choice (o a : Nat) : Nat.max o a = o ∨ Nat.max o a = a := by
  rcases Nat.le_total o a with h | h
  · exact Or.inr (Nat.max_eq_right h)
  · exact Or.inl (Nat.max_eq_left h)

/-- `max(xs)` (folded from a nonempty list) is an element of the list. -/
theorem foldl_max_mem (os : List Nat) : ∀ o : Nat, List.foldl Nat.max o os ∈ o :: os := by
  induction os with
  | nil => intro o; simp [List.foldl]
  | cons a as ih =>
    intro o
    have h := ih (Nat.max o a)
    simp only [List.foldl]
    rcases List.mem_cons.mp h with h1 | h1
    · rcases natMax_choice o a with h2 | h2 <;> rw [h1, h2] <;> simp
    · simp [List.mem_cons, h1]

/-- `max(xs)` bounds every element of the list. -/
theorem le_foldl_max (os : List Nat) :
    ∀ o x : Nat, x ∈ o :: os → x ≤ List.foldl Nat.max o os := by
  induction os with
  | nil =>
    intro o x hx
    simp only [List.foldl]
    simp at hx
    omega
  | cons a as ih =>
    intro o x hx
    simp only [List.foldl]
    have hoa : Nat.max o a ≤ List.foldl Nat.max (Nat.max o a) as :=
      ih (Nat.max o a) (Nat.max o a) (List.mem_cons_self _ _)
    rcases List.mem_cons.mp hx with h | h
    · rw [h]
      exact le_trans (Nat.le_max_left o a) hoa
    · rcases List.mem_cons.mp h with h2 | h2
      · rw [h2]
        exact le_trans (Nat.le_max_right o a) hoa
      · exact ih (Nat.max o a) x (List.mem_cons_of_mem _ h2)

/-- `list.index` of a present element is in bounds. -/
theorem pyIndex_lt_length {x : Nat} {l : List Nat} (h : x ∈ l) :
    pyIndex l x < l.length := by
  induction l with
  | nil => cases h
  | cons a as ih =>
    simp only [pyIndex, List.length_cons]
    by_cases ha : a = x
    · simp [ha]
    · have hx : x ∈ as := by
        rcases List.mem_cons.mp h with h1 | h1
        · exact absurd h1.symm ha
        · exact h1
      simp only [if_neg ha]
      have := ih hx
      omega

/-- The ranking loop never touches the object state `parsed_content`. -/
theorem selectLoopSt_state (n : Nat) :
    ∀ (pk : List String) (oc : List Nat) (s : Aggregate),
    (selectLoopSt n pk oc s).2 = s := by
  induction n with
  | zero => intro pk oc s; rfl
  | succ n ih =>
    intro pk oc s
    cases oc with
    | nil => rfl
    | cons o os =>
      simp only [selectLoopSt]
      exact ih _ _ s

/-- The ranking loop prints exactly `min n |occurrence_list|` lines. -/
theorem selectLoopSt_length (n : Nat) :
    ∀ (pk : List String) (oc : List Nat) (s : Aggregate),
    (selectLoopSt n pk oc s).1.1.length = min n oc.length := by
  induction n with
  | zero => intro pk oc s; simp [selectLoopSt]
  | succ n ih =>
    intro pk oc s
    cases oc with
    | nil => simp [selectLoopSt]
    | cons o os =>
      simp only [selectLoopSt, List.length_cons]
      have hm : List.foldl Nat.max o os ∈ o :: os := foldl_max_mem os o
      have hidx : pyIndex (o :: os) (List.foldl Nat.max o os) < (o :: os).length :=
        pyIndex_lt_length hm
      rw [ih, List.length_eraseIdx_of_lt hidx]
      simp only [List.length_cons]
      omega

/-- Every count printed by the ranking loop is bounded by any bound on the
occurrence list. -/
theorem selectLoopSt_counts_le (n : Nat) :
    ∀ (pk : List String) (oc : List Nat) (s : Aggregate) (b : Nat),
    (∀ x ∈ oc, x ≤ b) → ∀ e ∈ (selectLoopSt n pk oc s).1.1, e.2 ≤ b := by
  induction n with
  | zero =>
    intro pk oc s b hb e he
    simp [selectLoopSt] at he
  | succ n ih =>
    intro pk oc s b hb e he
    cases oc with
    | nil => simp [selectLoopSt] at he
    | cons o os =>
      simp only [selectLoopSt, List.mem_cons] at he
      rcases he with he | he
      · subst he
        exact hb _ (foldl_max_mem os o)
      · exact ih _ _ s b
          (fun x hx => hb x (List.mem_of_mem_eraseIdx hx)) e he

/-- The counts printed by the ranking loop are non-increasing. -/
theorem selectLoopSt_chain (n : Nat) :
    ∀ (pk : List String) (oc : List Nat) (s : Aggregate),
    List.Chain' (fun a b => b.2 ≤ a.2) (selectLoopSt n pk oc s).1.1 := by
  induction n with
  | zero => intro pk oc s; simp [selectLoopSt]
  | succ n ih =>
    intro pk oc s
    cases oc with
    | nil => simp [selectLoopSt]
    | cons o os =>
      simp only [selectLoopSt]
      rw [List.chain'_cons']
      refine ⟨?_, ih _ _ s⟩
      intro y hy
      have hym : y ∈ (selectLoopSt n
          (pk.eraseIdx (pyIndex (o :: os) (List.foldl Nat.max o os)))
          ((o :: os).eraseIdx (pyIndex (o :: os) (List.foldl Nat.max o os))) s).1.1 :=
        List.mem_of_mem_head? hy
      exact selectLoopSt_counts_le n _ _ s _
        (fun x hx => le_foldl_max os o x (List.mem_of_mem_eraseIdx hx)) y hym

/-! ### Facts about the aggregate accumulation -/

/-- Effect of one `addPackage` step on the count of an arbitrary key. -/
theorem countOf_addPackage (pc : Aggregate) (package file key : String) :
    countOf (addPackage pc package file) key =
      countOf pc key + (if package = key then 1 else 0) := by
  induction pc with
  | nil =>
    simp only [addPackage, countOf]
    by_cases h : package = key <;> simp [h]
  | cons p rest ih =>
    rcases p with ⟨k, fs⟩
    simp only [addPackage]
    by_cases h1 : k = package
    · subst h1
      simp only [if_pos rfl, countOf]
      by_cases h2 : k = key
      · simp [h2]
      · simp [h2]
    · simp only [if_neg h1, countOf]
      by_cases h2 : k = key
      · have h3 : ¬ package = key := fun hp => h1 (h2.trans hp.symm)
        simp [h2, h3]
      · simp [h2, ih]

/-- One `addPackage` step adds exactly one recorded file occurrence. -/
theorem sumCounts_addPackage (pc : Aggregate) (package file : String) :
    sumCounts (addPackage pc package file) = sumCounts pc + 1 := by
  induction pc with
  | nil => simp [addPackage, sumCounts]
  | cons p rest ih =>
    rcases p with ⟨k, fs⟩
    by_cases h : k = package
    · simp [addPackage, h, sumCounts]
      omega
    · simp [addPackage, h, sumCounts] at *
      omega

/-- Folding a token list into the aggregate adds, for each key, the number of
occurrences of that key in the token list. -/
theorem countOf_foldlAdd (toks : List String) :
    ∀ (pc : Aggregate) (file key : String),
    countOf (toks.foldl (fun acc package => addPackage acc package file) pc) key =
      countOf pc key + countTok toks key := by
  induction toks with
  | nil => intro pc file key; simp [countTok]
  | cons t ts ih =>
    intro pc file key
    simp only [List.foldl, countTok]
    rw [ih, countOf_addPackage]
    omega

/-- Folding a token list into the aggregate adds one occurrence per token to
the total count. -/
theorem sumCounts_foldlAdd (toks : List String) :
    ∀ (pc : Aggregate) (file : String),
    sumCounts (toks.foldl (fun acc package => addPackage acc package file) pc) =
      sumCounts pc + toks.length := by
  induction toks with
  | nil => intro pc file; simp
  | cons t ts ih =>
    intro pc file
    simp only [List.foldl, List.length_cons]
    rw [ih, sumCounts_addPackage]
    omega

/-- A successfully parsed line has at least two whitespace-separated fields,
and its effect on the aggregate is the fold of its token list. -/
theorem parseLine_ok {pc pc' : Aggregate} {l : String}
    (h : parseLine pc l = Except.ok pc') :
    ∃ f p rest, reSplitWs l = f :: p :: rest ∧
      tokensOfLine l = splitComma p ∧
      pc' = (splitComma p).foldl (fun acc package => addPackage acc package f) pc := by
  unfold parseLine at h
  cases hsplit : reSplitWs l with
  | nil => rw [hsplit] at h; simp at h
  | cons f rest =>
    cases rest with
    | nil => rw [hsplit] at h; simp at h
    | cons p rest2 =>
      rw [hsplit] at h
      simp only [Except.ok.injEq] at h
      exact ⟨f, p, rest2, rfl, by simp [tokensOfLine, hsplit], h.symm⟩

/-- The count of any key after a successful parse run starting from `pc`
grows by the number of occurrences of the key in the parsed lines. -/
theorem parseFileFrom_countOf (lines : List String) :
    ∀ (pc pc' : Aggregate) (key : String),
    parseFileFrom pc lines = Except.ok pc' →
    countOf pc' key = countOf pc key + totalOcc lines key := by
  induction lines with
  | nil =>
    intro pc pc' key h
    simp only [parseFileFrom, Except.ok.injEq] at h
    simp [totalOcc, h]
  | cons l ls ih =>
    intro pc pc' key h
    simp only [parseFileFrom] at h
    cases hpl : parseLine pc l with
    | error e => rw [hpl] at h; simp at h
    | ok pc1 =>
      rw [hpl] at h
      simp only at h
      rcases parseLine_ok hpl with ⟨f, p, rest, hsplit, htok, hpc1⟩
      simp only [totalOcc]
      rw [ih _ _ key h, hpc1, countOf_foldlAdd, htok]
      omega

/-- The total count after a successful parse run starting from `pc` grows by
the total number of tokens of the parsed lines. -/
theorem parseFileFrom_sumCounts (lines : List String) :
    ∀ (pc pc' : Aggregate),
    parseFileFrom pc lines = Except.ok pc' →
    sumCounts pc' = sumCounts pc + totalTokens lines := by
  induction lines with
  | nil =>
    intro pc pc' h
    simp only [parseFileFrom, Except.ok.injEq] at h
    simp [totalTokens, h]
  | cons l ls ih =>
    intro pc pc' h
    simp only [parseFileFrom] at h
    cases hpl : parseLine pc l with
    | error e => rw [hpl] at h; simp at h
    | ok pc1 =>
      rw [hpl] at h
      simp only at h
      rcases parseLine_ok hpl with ⟨f, p, rest, hsplit, htok, hpc1⟩
      simp only [totalTokens]
      rw [ih _ _ h, hpc1, sumCounts_foldlAdd, htok]
      omega

/-! ### Facts about `get_top_packages` and `main` -/

/-- `get_top_packages` prints exactly `min number |parsed_content|` ranked
lines. -/
theorem getTopPackages_length (pc : Aggregate) (number : Nat) :
    (getTopPackages pc number).1.length = min number pc.length := by
  unfold getTopPackages getTopPackagesSt
  rw [selectLoopSt_length]
  simp

/-- When parsing succeeds, `main` prints whatever `get_top_packages` prints
and its exit status is decided by the exception `get_top_packages` raises. -/
theorem runMain_parseOk {lines : List String} {pc : Aggregate}
    (h : parseFile lines = Except.ok pc) (number : Nat) :
    (runMain lines number).1 = (getTopPackages pc number).1 := by
  unfold runMain
  rw [h]
  dsimp only
  rcases hg : getTopPackages pc number with ⟨out, err⟩
  cases err <;> rfl

/-- When parsing fails, `main` prints no ranked line and the outcome is the
one of the raised exception. -/
theorem runMain_parseErr {lines : List String} {e : PyErr}
    (h : parseFile lines = Except.error e) (number : Nat) :
    runMain lines number = ([], errOutcome e) := by
  unfold runMain
  rw [h]

/-! ### The claims -/

/-- Claim C1.  The spec asserts that an input stream containing a malformed
line (a non-empty line with fewer than two whitespace-separated fields, such
as `bin/only-one-field` with no package list) makes parsing fail fatally with
no partial aggregate exposed.  The code violates this: on the physical line
`"bin/only-one-field\n"` — the form every non-final stream line takes, since
`readlines` keeps the terminator — `re.split(r"\s{1,}", line)` yields the two
fields `["bin/only-one-field", ""]`, so parsing succeeds and silently records
the empty-string package key with count 1: exactly the silent under-counting
the spec's failure policy is meant to rule out. -/
theorem claim_C1_malformed_line_is_accepted :
    parseFile ["bin/only-one-field\n"] =
      Except.ok [("", ["bin/only-one-field"])] ∧
    countOf [("", ["bin/only-one-field"])] "" = 1 :=
  ⟨by decide, by decide⟩

/-- Claim C2.  The spec asserts `select(K)` returns exactly
`min(K, distinct_package_count)` ranked entries, in particular all of them
when K exceeds the number of distinct packages.  The code violates the
completion part: with one distinct package and K = 2 the loop prints the
single entry and then evaluates `max([])` on the emptied auxiliary list,
which raises `ValueError`, so the call never returns normally and `main`
exits with status 1. -/
theorem claim_C2_select_raises_when_K_exceeds :
    getTopPackages [("x", ["bin/a"])] 2 = ([("x", 1)], some PyErr.valueError) := by
  decide

/-- Claim C3.  The spec asserts that on the empty stream the aggregate is
empty, `select(10)` returns an empty sequence, no ranked line is printed and
the run exits with status 0.  The code builds the empty aggregate and prints
no ranked line, but `select(10)` immediately evaluates `max([])`, raising
`ValueError`, which `main` catches before exiting with status 1 — not 0. -/
theorem claim_C3_empty_stream_exits_nonzero :
    parseFile [] = Except.ok [] ∧
    getTopPackages [] 10 = ([], some PyErr.valueError) ∧
    runMain [] 10 = ([], Outcome.exitOneCaught) :=
  ⟨by decide, by decide, by decide⟩

/-- Claim C4: in every run, either the full aggregate is built and a complete
ranked list of exactly `min(K, distinct_package_count)` lines is printed, or
no ranked line is printed and the run fails; no strict partial report is ever
emitted. -/
theorem claim_C4_no_partial_report (lines : List String) (number : Nat) :
    (∀ pc, parseFile lines = Except.ok pc →
      (runMain lines number).1.length = min number pc.length) ∧
    (∀ e, parseFile lines = Except.error e →
      (runMain lines number).1 = [] ∧
        (runMain lines number).2 ≠ Outcome.exitZero) := by
  constructor
  · intro pc h
    rw [runMain_parseOk h, getTopPackages_length]
  · intro e h
    rw [runMain_parseErr h]
    refine ⟨rfl, ?_⟩
    cases e <;> decide

/-- Witness for claim C4 at a concrete run. -/
theorem claim_C4_witness : (runMain ["a b\n"] 2).1.length = min 2 1 :=
  (claim_C4_no_partial_report ["a b\n"] 2).1 [("b", ["a"])] (by decide)

/-- Claim C5, counterexample: the spec asserts the recorded count of a key
equals the number of distinct lines whose package-token list contains the
key.  On the single line `"f x,x\n"`, whose token list repeats the key `x`,
the code records count 2 for `x` while only one line contains it. -/
theorem claim_C5_counterexample :
    parseFile ["f x,x\n"] = Except.ok [("x", ["f", "f"])] ∧
    countOf [("x", ["f", "f"])] "x" = 2 ∧
    linesWithKey ["f x,x\n"] "x" = 1 :=
  ⟨by decide, by decide, by decide⟩

/-- Claim C5 as amended: the count recorded for a key equals the total number
of occurrences of that key across the package-token lists of all lines (a key
occurring twice in one line is counted twice); the key is created with count 1
at its first occurrence and incremented by 1 at every later occurrence. -/
theorem claim_C5_count_is_per_occurrence (lines : List String) (pc : Aggregate)
    (key : String) (h : parseFile lines = Except.ok pc) :
    countOf pc key = totalOcc lines key := by
  have hc := parseFileFrom_countOf lines [] pc key h
  simpa [countOf] using hc

/-- Witness for the amended claim C5 at a concrete run. -/
theorem claim_C5_witness :
    countOf [("x", ["f", "f"])] "x" = totalOcc ["f x,x\n"] "x" :=
  claim_C5_count_is_per_occurrence ["f x,x\n"] [("x", ["f", "f"])] "x" (by decide)

/-- Claim C6: for every input stream the parser accepts, the sum of the
aggregate's counts over all keys equals the total number of
(line, package-token) occurrences, i.e. the sum over all lines of the number
of comma-separated tokens of that line's package list. -/
theorem claim_C6_count_conservation (lines : List String) (pc : Aggregate)
    (h : parseFile lines = Except.ok pc) :
    sumCounts pc = totalTokens lines := by
  have hs := parseFileFrom_sumCounts lines [] pc h
  simpa [sumCounts] using hs

/-- Witness for claim C6 at a concrete run. -/
theorem claim_C6_witness :
    sumCounts [("b", ["a"]), ("c", ["a"])] = totalTokens ["a b,c\n"] :=
  claim_C6_count_conservation ["a b,c\n"] [("b", ["a"]), ("c", ["a"])] (by decide)

/-- Claim C7: for every aggregate and every K, any two adjacent entries of
the selector's printed sequence have non-increasing counts (descending
order). -/
theorem claim_C7_descending_order (pc : Aggregate) (number : Nat) :
    List.Chain' (fun a b => b.2 ≤ a.2) (getTopPackages pc number).1 := by
  unfold getTopPackages getTopPackagesSt
  exact selectLoopSt_chain number _ _ pc

/-- Claim C8: the selector is deterministic — running it a second time on the
aggregate as left by a first run, with the same K, yields the identical
output sequence (hence also the same relative order of equal-count packages:
the loop always takes the first index of the maximum, so ties follow the
aggregate's insertion order the same way in both runs). -/
theorem claim_C8_deterministic (s : Aggregate) (number : Nat) :
    (getTopPackagesSt ((getTopPackagesSt s number).2) number).1 =
      (getTopPackagesSt s number).1 := by
  have hst : (getTopPackagesSt s number).2 = s := by
    unfold getTopPackagesSt
    exact selectLoopSt_state number _ _ s
  rw [hst]

/-- Claim C9: the selector has no side effect on the aggregate — after
`get_top_packages` runs, `parsed_content` is exactly what it was before the
call (the loop only pops from the auxiliary lists). -/
theorem claim_C9_no_side_effects (s : Aggregate) (number : Nat) :
    (getTopPackagesSt s number).2 = s := by
  unfold getTopPackagesSt
  exact selectLoopSt_state number _ _ s

/-- Claim C10: on an input line consisting of a single whitespace-free field
with no trailing whitespace (a final line `bin/only-one-field` not terminated
by a newline), `re.split` returns a one-element list, `parsed_line[1]` raises
`IndexError`, and since `main` handles only `IOError` and `ValueError`, the
exception escapes: no ranked line is printed and the interpreter aborts. -/
theorem claim_C10_index_error_escapes :
    (reSplitWs "bin/only-one-field").length = 1 ∧
    parseLine [] "bin/only-one-field" = Except.error PyErr.indexError ∧
    runMain ["bin/only-one-field"] 10 = ([], Outcome.uncaughtException) :=
  ⟨by decide, by decide, by decide⟩
